import Mathlib

/-!
Shallow embedding of the signal pipeline of the schwab_data_fetcher
repository: the position state machine (src/position_tracker.py), the
indicator engine (src/indicator_calculator.py), the candle aggregation
engine (src/data_aggregator.py) and the inverse-candle transform
(src/data_fetcher.py).  Python floats are modelled as rationals, Python
None as Option.none, and CSV/JSON stores as explicit values passed to the
functions that the source reads them in.
-/

namespace SchwabDataFetcher

/-! ## Position state machine (src/position_tracker.py) -/

/-- Position state, the CLOSED/OPENED strings of the source. -/
inductive PosState where
  | CLOSED
  | OPENED
deriving DecidableEq, Repr

/-- Model of the `position_type` argument of `_process_position_type`. -/
inductive Side where
  | LONG
  | SHORT
deriving DecidableEq, Repr

/-- Model of the OPEN/CLOSE action strings put into the result dict. -/
inductive Action where
  | OPEN
  | CLOSE
deriving DecidableEq, Repr

/-- One `(timeframe, side)` slot of the tracker's state: the entry of
`position_states`, `opening_prices` and `total_pnl` for that key. -/
structure PositionRecord where
  state : PosState
  opening_price : Option Rat
  total_pnl : Rat
deriving DecidableEq, Repr

/-- The indicator dict handed to `_process_position_type`; every field is a
parsed float by the time the dict is built. -/
structure IndicatorSnapshot where
  close : Rat
  ema_7 : Rat
  vwma_17 : Rat
  macd_line : Rat
  macd_signal : Rat
  roc_8 : Rat
deriving DecidableEq, Repr

/-- Model of `PositionTracker.evaluate_trading_conditions`: the three
strict comparisons and the sum of booleans `conditions_met`. -/
def evaluate_trading_conditions (indicators : IndicatorSnapshot) :
    Bool × Bool × Bool × Nat :=
  let ema_condition := decide (indicators.ema_7 > indicators.vwma_17)
  let macd_condition := decide (indicators.macd_line > indicators.macd_signal)
  let roc_condition := decide (indicators.roc_8 > 0)
  let conditions_met := (if ema_condition then 1 else 0) +
    (if macd_condition then 1 else 0) + (if roc_condition then 1 else 0)
  (ema_condition, macd_condition, roc_condition, conditions_met)

/-- Model of `PositionTracker._process_position_type` restricted to the
state it mutates: the in-memory record for `(period, position_type)` and
the action put into the result dict.  A None opening price in the CLOSE
branch would raise in the source; the reachability invariant rules it out,
and `getD 0` supplies a junk value there. -/
def process_position_type (position_type : Side) (record : PositionRecord)
    (indicators : IndicatorSnapshot) : PositionRecord × Option Action :=
  let conditions_met := (evaluate_trading_conditions indicators).2.2.2
  let current_price := indicators.close
  if record.state = .CLOSED ∧ conditions_met = 3 then
    ({ state := .OPENED, opening_price := some current_price,
       total_pnl := record.total_pnl }, some .OPEN)
  else if record.state = .OPENED ∧ conditions_met ≤ 1 then
    let opening_price := record.opening_price.getD 0
    -- the LONG and SHORT branches of the source compute the same formula
    let pnl_dollar := match position_type with
      | .LONG => current_price - opening_price
      | .SHORT => current_price - opening_price
    ({ state := .CLOSED, opening_price := none,
       total_pnl := record.total_pnl + pnl_dollar }, some .CLOSE)
  else
    (record, none)

/-- The default record of `_load_position_states`. -/
def default_position_record : PositionRecord :=
  { state := .CLOSED, opening_price := none, total_pnl := 0 }

/-- Records reachable from the default record by evaluation steps. -/
inductive ReachableRecord : PositionRecord → Prop where
  | init : ReachableRecord default_position_record
  | step (record : PositionRecord) (side : Side) (ind : IndicatorSnapshot) :
      ReachableRecord record →
      ReachableRecord (process_position_type side record ind).1

theorem opening_price_iff_opened_of_reachable {record : PositionRecord}
    (h : ReachableRecord record) :
    record.opening_price.isSome = true ↔ record.state = .OPENED := by
  induction h with
  | init => simp [default_position_record]
  | step record side ind _ ih =>
    simp only [process_position_type]
    split
    · simp
    · split
      · simp
      · simpa using ih

/-- C1: for any record and fully populated indicator row,
`evaluate_trading_conditions` counts the true comparisons among
`ema_7 > vwma_17`, `macd_line > macd_signal`, `roc_8 > 0`, and one step of
`_process_position_type` follows the transition table: CLOSED with 3
conditions opens at the row's close, CLOSED with fewer than 3 does nothing,
OPENED with 2 or 3 does nothing (hysteresis), OPENED with at most 1 closes
and adds `close - opening_price` to the cumulative P&L; the same table is
applied for LONG and SHORT with no sign inversion. -/
theorem c1_transition_table (record : PositionRecord)
    (ind : IndicatorSnapshot) :
    ((evaluate_trading_conditions ind).2.2.2 =
      [decide (ind.ema_7 > ind.vwma_17),
       decide (ind.macd_line > ind.macd_signal),
       decide (ind.roc_8 > 0)].count true) ∧
    (record.state = .CLOSED → (evaluate_trading_conditions ind).2.2.2 = 3 →
      ∀ side, process_position_type side record ind =
        ({ state := .OPENED, opening_price := some ind.close,
           total_pnl := record.total_pnl }, some .OPEN)) ∧
    (record.state = .CLOSED → (evaluate_trading_conditions ind).2.2.2 < 3 →
      ∀ side, process_position_type side record ind = (record, none)) ∧
    (record.state = .OPENED →
      ((evaluate_trading_conditions ind).2.2.2 = 2 ∨
        (evaluate_trading_conditions ind).2.2.2 = 3) →
      ∀ side, process_position_type side record ind = (record, none)) ∧
    (record.state = .OPENED → (evaluate_trading_conditions ind).2.2.2 ≤ 1 →
      ∀ p, record.opening_price = some p →
      ∀ side, process_position_type side record ind =
        ({ state := .CLOSED, opening_price := none,
           total_pnl := record.total_pnl + (ind.close - p) }, some .CLOSE)) ∧
    (∀ side side' : Side, process_position_type side record ind =
      process_position_type side' record ind) := by
  refine ⟨?_, ?_, ?_, ?_, ?_, ?_⟩
  · by_cases h1 : ind.ema_7 > ind.vwma_17 <;>
      by_cases h2 : ind.macd_line > ind.macd_signal <;>
      by_cases h3 : ind.roc_8 > 0 <;>
      simp [evaluate_trading_conditions, h1, h2, h3]
  · intro hs hc side
    simp only [process_position_type]
    rw [if_pos ⟨hs, hc⟩]
  · intro hs hc side
    simp only [process_position_type]
    rw [if_neg fun hx => by omega, if_neg fun hx => by
      rw [hs] at hx; exact PosState.noConfusion hx.1]
  · intro hs hc side
    simp only [process_position_type]
    rw [if_neg fun hx => by rw [hs] at hx; exact PosState.noConfusion hx.1,
      if_neg fun hx => by omega]
  · intro hs hc p hp side
    simp only [process_position_type]
    rw [if_neg fun hx => by rw [hs] at hx; exact PosState.noConfusion hx.1,
      if_pos ⟨hs, hc⟩]
    cases side <;> simp [hp]
  · intro side side'
    cases side <;> cases side' <;> rfl

/-- An indicator snapshot meeting all three conditions (12 > 10, 5 > 2,
2 > 0), used to exercise the OPEN branch in witnesses. -/
def snapshot_all_met : IndicatorSnapshot :=
  { close := 100, ema_7 := 12, vwma_17 := 10, macd_line := 5,
    macd_signal := 2, roc_8 := 2 }

/-- Witness for C1: the OPEN row of the table evaluated on a concrete
closed record and a concrete 3-of-3 indicator snapshot. -/
theorem c1_transition_table_witness :
    process_position_type .LONG default_position_record snapshot_all_met =
      ({ state := .OPENED, opening_price := some 100, total_pnl := 0 },
        some .OPEN) :=
  (c1_transition_table default_position_record snapshot_all_met).2.1
    rfl (by rfl) .LONG

/-- C2: every record reachable from the initial CLOSED/None/0 record keeps
`opening_price` defined exactly when the state is OPENED; a step changes
`total_pnl` only when it reports CLOSE; OPEN is only ever reported from a
CLOSED record and CLOSE only from an OPENED record. -/
theorem c2_reachable_invariants (record : PositionRecord)
    (h : ReachableRecord record) :
    (record.opening_price.isSome = true ↔ record.state = .OPENED) ∧
    (∀ side ind,
      ((process_position_type side record ind).2 ≠ some .CLOSE →
        (process_position_type side record ind).1.total_pnl =
          record.total_pnl) ∧
      ((process_position_type side record ind).2 = some .OPEN →
        record.state = .CLOSED) ∧
      ((process_position_type side record ind).2 = some .CLOSE →
        record.state = .OPENED)) := by
  refine ⟨opening_price_iff_opened_of_reachable h, fun side ind => ?_⟩
  simp only [process_position_type]
  split
  · rename_i hx
    exact ⟨fun _ => rfl, fun _ => hx.1, fun hc => by simp at hc⟩
  · split
    · rename_i hx
      refine ⟨fun hc => absurd rfl hc, fun ho => by simp at ho,
        fun _ => hx.1⟩
    · exact ⟨fun _ => rfl, fun ho => by simp at ho, fun hc => by simp at hc⟩

/-- Witness for C2: the invariant applied to a record reached by one OPEN
step from the initial record. -/
theorem c2_reachable_invariants_witness :
    ((process_position_type .LONG default_position_record
        snapshot_all_met).1.opening_price.isSome = true ↔
      (process_position_type .LONG default_position_record
        snapshot_all_met).1.state = .OPENED) :=
  (c2_reachable_invariants _
    (ReachableRecord.step default_position_record .LONG snapshot_all_met
      ReachableRecord.init)).1

/-! ## Indicator engine (src/indicator_calculator.py) -/

/-- The accumulation loop of `calculate_ema`: each output value is
`price * multiplier + previous * (1 - multiplier)`. -/
def ema_loop (multiplier : Rat) : Rat → List Rat → List Rat
  | _, [] => []
  | prev, p :: rest =>
    let v := p * multiplier + prev * (1 - multiplier)
    v :: ema_loop multiplier v rest

/-- Model of `IndicatorCalculator.calculate_ema`: None until index
`period - 1`, the SMA of the first `period` prices there, then the
recurrence computed by `ema_loop`. -/
def calculate_ema (prices : List Rat) (period : Nat) : List (Option Rat) :=
  if prices.length < period then List.replicate prices.length none
  else
    let multiplier : Rat := 2 / ((period : Rat) + 1)
    let seed : Rat := (prices.take period).sum / (period : Rat)
    List.replicate (period - 1) none ++
      (seed :: ema_loop multiplier seed (prices.drop period)).map some

/-- Model of `IndicatorCalculator.calculate_vwma`: trailing-window
volume-weighted average, None when the window volume sum is not
positive. -/
def calculate_vwma (prices volumes : List Rat) (period : Nat) :
    List (Option Rat) :=
  if prices.length < period ∨ volumes.length < period then
    List.replicate prices.length none
  else
    (List.range prices.length).map fun i =>
      if i + 1 < period then none
      else
        let period_prices := (prices.drop (i + 1 - period)).take period
        let period_volumes := (volumes.drop (i + 1 - period)).take period
        let weighted_sum :=
          ((period_prices.zip period_volumes).map fun q => q.1 * q.2).sum
        let volume_sum := period_volumes.sum
        if volume_sum > 0 then some (weighted_sum / volume_sum) else none

/-- The MACD-line construction inside `calculate_macd`: index-wise
`ema_12[i] - ema_26[i]` where both are defined, None otherwise. -/
def macd_line_of (prices : List Rat) : List (Option Rat) :=
  (List.range prices.length).map fun i =>
    match (calculate_ema prices 12).getD i none,
        (calculate_ema prices 26).getD i none with
    | some a, some b => some (a - b)
    | _, _ => none

/-- The signal-line construction inside `calculate_macd`: the 9-EMA of the
compacted defined MACD values remapped from the first defined MACD
index. -/
def macd_signal_of (prices : List Rat) : List (Option Rat) :=
  let macd_for_signal := (macd_line_of prices).filterMap id
  if macd_for_signal.length < 9 then List.replicate prices.length none
  else
    let signal_ema := calculate_ema macd_for_signal 9
    let signal_start_idx := (macd_line_of prices).findIdx Option.isSome
    (List.range prices.length).map fun i =>
      if signal_start_idx ≤ i then signal_ema.getD (i - signal_start_idx) none
      else none

/-- Model of `IndicatorCalculator.calculate_macd`: everything is None with
fewer than 26 prices, otherwise the MACD line and signal line above. -/
def calculate_macd (prices : List Rat) :
    List (Option Rat) × List (Option Rat) :=
  if prices.length < 26 then
    (List.replicate prices.length none, List.replicate prices.length none)
  else (macd_line_of prices, macd_signal_of prices)

/-- Model of `IndicatorCalculator.calculate_roc`: percentage rate of
change over `period` rows, None for the first `period` rows and where the
reference close is zero. -/
def calculate_roc (prices : List Rat) (period : Nat) : List (Option Rat) :=
  if prices.length < period + 1 then List.replicate prices.length none
  else
    (List.range prices.length).map fun i =>
      if i < period then none
      else
        let current_price := prices.getD i 0
        let past_price := prices.getD (i - period) 0
        if past_price ≠ 0 then
          some ((current_price - past_price) / past_price * 100)
        else none

theorem ema_loop_length (multiplier : Rat) (prev : Rat) (l : List Rat) :
    (ema_loop multiplier prev l).length = l.length := by
  induction l generalizing prev with
  | nil => rfl
  | cons p rest ih => simp [ema_loop, ih]

/-- Each element of the EMA loop output after the first obeys the
recurrence with respect to its predecessor and the matching price. -/
theorem ema_loop_chain (multiplier : Rat) (l : List Rat) (prev : Rat)
    (j : Nat) (hj : j < l.length) :
    ∃ a b, l[j]? = some a ∧
      (prev :: ema_loop multiplier prev l)[j]? = some b ∧
      (prev :: ema_loop multiplier prev l)[j + 1]? =
        some (a * multiplier + b * (1 - multiplier)) := by
  induction l generalizing prev j with
  | nil => exact absurd hj (by simp)
  | cons p rest ih =>
    cases j with
    | zero => exact ⟨p, prev, by simp, by simp, by simp [ema_loop]⟩
    | succ jj =>
      obtain ⟨a, b, h1, h2, h3⟩ :=
        ih (p * multiplier + prev * (1 - multiplier)) jj (by simpa using hj)
      exact ⟨a, b, by simpa using h1, by simpa [ema_loop] using h2,
        by simpa [ema_loop] using h3⟩

/-- Unfolded form of `calculate_ema` when enough prices are present. -/
theorem calculate_ema_eq (prices : List Rat) (period : Nat)
    (h : ¬ prices.length < period) :
    calculate_ema prices period =
      List.replicate (period - 1) none ++
        (((prices.take period).sum / (period : Rat)) ::
          ema_loop (2 / ((period : Rat) + 1))
            ((prices.take period).sum / (period : Rat))
            (prices.drop period)).map some := by
  rw [calculate_ema, if_neg h]

/-- C8: with at least `period` prices, the EMA series is undefined before
the period-th entry, equals the arithmetic mean of the first `period`
closes there, and afterwards follows
`ema[i] = close[i] * k + ema[i-1] * (1 - k)` with `k = 2 / (period + 1)`. -/
theorem c8_ema_seed_and_recurrence (prices : List Rat) (period : Nat)
    (h0 : 0 < period) (hlen : period ≤ prices.length) :
    (∀ i, i + 1 < period → (calculate_ema prices period)[i]? = some none) ∧
    (calculate_ema prices period)[period - 1]? =
      some (some ((prices.take period).sum / (period : Rat))) ∧
    (∀ i, period ≤ i → i < prices.length →
      ∃ p e, prices[i]? = some p ∧
        (calculate_ema prices period)[i - 1]? = some (some e) ∧
        (calculate_ema prices period)[i]? = some (some
          (p * (2 / ((period : Rat) + 1)) +
            e * (1 - 2 / ((period : Rat) + 1))))) := by
  have hnot : ¬ prices.length < period := not_lt.mpr hlen
  rw [calculate_ema_eq prices period hnot]
  refine ⟨?_, ?_, ?_⟩
  · intro i hi
    rw [List.getElem?_append, if_pos (by simp; omega),
      List.getElem?_replicate, if_pos (by omega)]
  · rw [List.getElem?_append_right (by simp)]
    simp
  · intro i hip hilen
    have hj : i - period < (prices.drop period).length := by simp; omega
    obtain ⟨a, b, h1, h2, h3⟩ := ema_loop_chain (2 / ((period : Rat) + 1))
      (prices.drop period) ((prices.take period).sum / (period : Rat))
      (i - period) hj
    refine ⟨a, b, ?_, ?_, ?_⟩
    · rw [List.getElem?_drop] at h1
      rw [← h1]
      congr 1
      omega
    · rw [List.getElem?_append_right (by simp; omega), List.getElem?_map]
      simp only [List.length_replicate]
      have hidx : i - 1 - (period - 1) = i - period := by omega
      rw [hidx, h2]
      rfl
    · rw [List.getElem?_append_right (by simp; omega), List.getElem?_map]
      simp only [List.length_replicate]
      have hidx : i - (period - 1) = i - period + 1 := by omega
      rw [hidx, h3]
      rfl

/-- Witness for C8: for closes 1..8 and period 7 the seventh value is the
mean 4 of the first seven closes and the eighth is 5. -/
theorem c8_ema_seed_and_recurrence_witness :
    (calculate_ema [1, 2, 3, 4, 5, 6, 7, 8] 7)[6]? = some (some 4) ∧
    (calculate_ema [1, 2, 3, 4, 5, 6, 7, 8] 7)[7]? = some (some 5) := by
  have h := (c8_ema_seed_and_recurrence [1, 2, 3, 4, 5, 6, 7, 8] 7
    (by decide) (by simp)).2.1
  constructor
  · rw [show (6 : Nat) = 7 - 1 from rfl, h]
    norm_num
  · norm_num [calculate_ema, ema_loop, List.replicate_succ]

/-- C10: every indicator series has exactly the length of its input price
series, for any input, including inputs shorter than the window. -/
theorem c10_series_lengths (prices volumes : List Rat) (period : Nat)
    (h0 : 0 < period) :
    (calculate_ema prices period).length = prices.length ∧
    (calculate_vwma prices volumes period).length = prices.length ∧
    (calculate_macd prices).1.length = prices.length ∧
    (calculate_macd prices).2.length = prices.length ∧
    (calculate_roc prices period).length = prices.length := by
  refine ⟨?_, ?_, ?_, ?_, ?_⟩
  · rw [calculate_ema]
    split
    · simp
    · rename_i hge
      simp [ema_loop_length]
      omega
  · rw [calculate_vwma]
    split <;> simp
  · rw [calculate_macd]
    split
    · simp
    · simp [macd_line_of]
  · rw [calculate_macd]
    split
    · simp
    · simp only
      rw [macd_signal_of]
      split <;> simp
  · rw [calculate_roc]
    split <;> simp

/-- Witness for C10: the lengths agree on a two-price input with the
seven-row EMA window (shorter than every window). -/
theorem c10_series_lengths_witness :
    (calculate_ema [3, 4] 7).length = 2 ∧
    (calculate_macd [3, 4]).1.length = 2 :=
  ⟨(c10_series_lengths [3, 4] [5, 6] 7 (by decide)).1,
    (c10_series_lengths [3, 4] [5, 6] 7 (by decide)).2.2.1⟩

/-! ## Indicator rows and row selection
(src/indicator_calculator.py, src/position_tracker.py) -/

/-- One CSV row as the trackers read it back: the close plus the seven
indicator columns, each either a number or empty/NaN (None here). -/
structure CsvRow where
  close : Rat
  ema_7 : Option Rat
  vwma_17 : Option Rat
  ema_12 : Option Rat
  ema_26 : Option Rat
  macd_line : Option Rat
  macd_signal : Option Rat
  roc_8 : Option Rat
deriving DecidableEq, Repr

/-- The completeness test shared by `get_latest_indicators` and
`_analyze_historical_for_type`: it checks the five columns
ema_7, vwma_17, macd_line, macd_signal and roc_8. -/
def row_has_complete_indicators (r : CsvRow) : Bool :=
  r.ema_7.isSome && r.vwma_17.isSome && r.macd_line.isSome &&
    r.macd_signal.isSome && r.roc_8.isSome

/-- Building the indicators dict from a selected row, as both the live and
the replay path do with `float(row[...])`. -/
def row_to_snapshot (r : CsvRow) : IndicatorSnapshot :=
  { close := r.close, ema_7 := r.ema_7.getD 0, vwma_17 := r.vwma_17.getD 0,
    macd_line := r.macd_line.getD 0, macd_signal := r.macd_signal.getD 0,
    roc_8 := r.roc_8.getD 0 }

/-- One iteration of the replay loop of `_analyze_historical_for_type`:
rows without complete indicators are skipped before any state is
touched. -/
def analyze_historical_row (side : Side) (record : PositionRecord)
    (r : CsvRow) : PositionRecord × Option Action :=
  if row_has_complete_indicators r then
    process_position_type side record (row_to_snapshot r)
  else (record, none)

/-- Model of the row selection of
`IndicatorCalculator.get_latest_indicators`: walk the store from the last
row backwards and surface the first row whose five checked indicator
columns are all populated. -/
def get_latest_indicators (rows : List CsvRow) : Option CsvRow :=
  rows.reverse.find? row_has_complete_indicators

/-- Row `i` of the store as `calculate_all_indicators` writes it: each
indicator column is the `i`-th entry of the corresponding series. -/
def indicator_row (prices volumes : List Rat) (i : Nat) : CsvRow :=
  { close := prices.getD i 0,
    ema_7 := (calculate_ema prices 7).getD i none,
    vwma_17 := (calculate_vwma prices volumes 17).getD i none,
    ema_12 := (calculate_ema prices 12).getD i none,
    ema_26 := (calculate_ema prices 26).getD i none,
    macd_line := (calculate_macd prices).1.getD i none,
    macd_signal := (calculate_macd prices).2.getD i none,
    roc_8 := (calculate_roc prices 8).getD i none }

/-- In calculator output a defined MACD line forces defined ema_12 and
ema_26 at the same index. -/
theorem macd_defined_implies_emas (prices : List Rat) (i : Nat)
    (h : ((calculate_macd prices).1.getD i none).isSome = true) :
    ((calculate_ema prices 12).getD i none).isSome = true ∧
      ((calculate_ema prices 26).getD i none).isSome = true := by
  rw [calculate_macd] at h
  split at h
  · rw [List.getD_eq_getElem?_getD, List.getElem?_replicate] at h
    split at h <;> simp at h
  · rw [macd_line_of, List.getD_eq_getElem?_getD, List.getElem?_map] at h
    rcases hi : (List.range prices.length)[i]? with _ | j
    · rw [hi] at h
      simp at h
    · rw [hi] at h
      have hji : j = i := by
        rcases lt_or_le i prices.length with hlt | hge
        · rw [List.getElem?_range hlt] at hi
          exact (Option.some_inj.mp hi).symm
        · rw [List.getElem?_eq_none (by simpa using hge)] at hi
          exact absurd hi (by simp)
      subst hji
      first
      | simp only [Option.map_some, Option.getD_some] at h
      | simp only [Option.map_some', Option.getD_some] at h
      rcases h12 : (calculate_ema prices 12).getD j none with _ | a
      · rw [h12] at h
        simp at h
      · rcases h26 : (calculate_ema prices 26).getD j none with _ | b
        · rw [h26] at h
          simp at h
        · simp

/-- C3: a row with any of the seven indicator fields undefined never
produces a transition: in calculator-produced rows the five-field
completeness check already forces all seven fields to be defined (a
defined macd_line implies defined ema_12 and ema_26); the replay loop
skips rows that fail the check leaving the record untouched with no
action; and live row selection only surfaces rows that pass the check. -/
theorem c3_incomplete_rows_never_transition (prices volumes : List Rat)
    (i : Nat) :
    (row_has_complete_indicators (indicator_row prices volumes i) = true →
      (indicator_row prices volumes i).ema_7.isSome = true ∧
      (indicator_row prices volumes i).vwma_17.isSome = true ∧
      (indicator_row prices volumes i).ema_12.isSome = true ∧
      (indicator_row prices volumes i).ema_26.isSome = true ∧
      (indicator_row prices volumes i).macd_line.isSome = true ∧
      (indicator_row prices volumes i).macd_signal.isSome = true ∧
      (indicator_row prices volumes i).roc_8.isSome = true) ∧
    (∀ side record r, row_has_complete_indicators r = false →
      analyze_historical_row side record r = (record, none)) ∧
    (∀ rows r, get_latest_indicators rows = some r →
      row_has_complete_indicators r = true) := by
  refine ⟨?_, ?_, ?_⟩
  · intro h
    rw [row_has_complete_indicators] at h
    simp only [Bool.and_eq_true] at h
    obtain ⟨⟨⟨⟨h7, h17⟩, hml⟩, hms⟩, h8⟩ := h
    obtain ⟨h12, h26⟩ := macd_defined_implies_emas prices i hml
    exact ⟨h7, h17, h12, h26, hml, hms, h8⟩
  · intro side record r h
    rw [analyze_historical_row, if_neg (by simp [h])]
  · intro rows r h
    exact List.find?_some h

/-- Witness for C3: a row with an empty macd_signal column is skipped by
the replay loop. -/
theorem c3_incomplete_rows_never_transition_witness :
    analyze_historical_row .LONG default_position_record
      { close := 10, ema_7 := some 12, vwma_17 := some 10,
        ema_12 := some 1, ema_26 := some 1, macd_line := some 5,
        macd_signal := none, roc_8 := some 2 } =
      (default_position_record, none) :=
  (c3_incomplete_rows_never_transition [] [] 0).2.1 .LONG
    default_position_record _ rfl

/-! ## Inverse candles (src/data_fetcher.py) -/

/-- One OHLCV candle; the API key for the period timestamp is named
datetime in the source dicts. -/
structure Candle where
  timestamp : Nat
  open_price : Rat
  high : Rat
  low : Rat
  close : Rat
  volume : Rat
deriving DecidableEq, Repr

/-- Model of `DataFetcher.calculate_inverse_candles`: candles with any
non-positive price are skipped, the others are inverted with high and low
swapped and the volume kept. -/
def calculate_inverse_candles : List Candle → List Candle
  | [] => []
  | c :: rest =>
    if c.open_price ≤ 0 ∨ c.high ≤ 0 ∨ c.low ≤ 0 ∨ c.close ≤ 0 then
      calculate_inverse_candles rest
    else
      { timestamp := c.timestamp, open_price := 1 / c.open_price,
        high := 1 / c.low, low := 1 / c.high, close := 1 / c.close,
        volume := c.volume } :: calculate_inverse_candles rest

/-- C9: the inverse-candle transform keeps, in order, exactly the candles
with all four prices positive, and maps each to reciprocal prices with
high and low swapped and the volume unchanged. -/
theorem c9_inverse_candles (candles : List Candle) :
    calculate_inverse_candles candles =
      (candles.filter fun c => decide (0 < c.open_price) &&
        decide (0 < c.high) && decide (0 < c.low) &&
        decide (0 < c.close)).map fun c =>
          { timestamp := c.timestamp, open_price := 1 / c.open_price,
            high := 1 / c.low, low := 1 / c.high, close := 1 / c.close,
            volume := c.volume } := by
  induction candles with
  | nil => rfl
  | cons c rest ih =>
    rw [calculate_inverse_candles]
    by_cases h : c.open_price ≤ 0 ∨ c.high ≤ 0 ∨ c.low ≤ 0 ∨ c.close ≤ 0
    · rw [if_pos h, ih, List.filter_cons, if_neg]
      intro hc
      simp only [Bool.and_eq_true, decide_eq_true_eq] at hc
      rcases h with h | h | h | h
      · exact absurd hc.1.1.1 (not_lt.mpr h)
      · exact absurd hc.1.1.2 (not_lt.mpr h)
      · exact absurd hc.1.2 (not_lt.mpr h)
      · exact absurd hc.2 (not_lt.mpr h)
    · have hpos : (decide (0 < c.open_price) && decide (0 < c.high) &&
          decide (0 < c.low) && decide (0 < c.close)) = true := by
        push_neg at h
        simp only [Bool.and_eq_true, decide_eq_true_eq]
        exact ⟨⟨⟨h.1, h.2.1⟩, h.2.2.1⟩, h.2.2.2⟩
      rw [if_neg h, ih, List.filter_cons, if_pos hpos, List.map_cons]

/-! ## Aggregation engine (src/data_aggregator.py) -/

/-- An aggregated candle as built by `aggregate_candles_to_period`; the
datetime field carries the period boundary timestamp. -/
structure AggCandle where
  datetime : Nat
  open_price : Rat
  high : Rat
  low : Rat
  close : Rat
  volume : Rat
deriving DecidableEq, Repr

/-- Model of `get_minute_boundary_timestamp`.  The source floors the
minute within the hour; for the 5- and 15-minute periods, which divide 60,
and whole-hour timezone offsets this equals flooring the epoch timestamp
to a multiple of the period. -/
def get_minute_boundary_timestamp (period_ms ts : Nat) : Nat :=
  ts / period_ms * period_ms

/-- Insert a boundary into an ascending duplicate-free boundary list;
models the sorted distinct keys of the pandas groupby. -/
def insert_boundary (x : Nat) : List Nat → List Nat
  | [] => [x]
  | y :: ys =>
    if x < y then x :: y :: ys
    else if x = y then y :: ys
    else y :: insert_boundary x ys

/-- The distinct period boundaries of a candle list. -/
def period_boundaries (period_ms : Nat) (candles : List Candle) :
    List Nat :=
  candles.foldr
    (fun c acc =>
      insert_boundary (get_minute_boundary_timestamp period_ms c.timestamp)
        acc) []

/-- The candles of one boundary group, in source order. -/
def boundary_group (period_ms b : Nat) (candles : List Candle) :
    List Candle :=
  candles.filter fun c =>
    decide (get_minute_boundary_timestamp period_ms c.timestamp = b)

/-- OHLCV aggregation of one non-empty group: first open, max of highs,
min of lows, last close, summed volume. -/
def aggregate_group (b : Nat) : List Candle → Option AggCandle
  | [] => none
  | c :: rest => some
    { datetime := b,
      open_price := c.open_price,
      high := rest.foldl (fun a x => max a x.high) c.high,
      low := rest.foldl (fun a x => min a x.low) c.low,
      close := (rest.getLastD c).close,
      volume := (c :: rest).foldl (fun a x => a + x.volume) 0 }

/-- The grouping loop of `aggregate_candles_to_period`: buckets in
ascending boundary order, a bucket being skipped while its period end is
still in the future and the session close has not passed. -/
def aggregate_candles (period_ms : Nat) (src : List Candle)
    (now_ms market_close_ms : Nat) : List AggCandle :=
  (period_boundaries period_ms src).filterMap fun b =>
    if now_ms < b + period_ms ∧ now_ms < market_close_ms then none
    else aggregate_group b (boundary_group period_ms b src)

/-- Minutes of a supported target, the source line
`period_minutes = 5 if target_period == '5m' else 15`. -/
def period_minutes_of (target_period : String) : Nat :=
  if target_period = "5m" then 5 else 15

/-- Model of `DataAggregator.aggregate_candles_to_period`: the returned
success flag together with the list of candles appended to the target
store.  `src` is None when the 1-minute store is missing, and
`last_aggregated_timestamp` is None when the target store has no rows.
The resume cursor is read through the Python truthiness test
`if last_aggregated_timestamp:`, so a cursor of 0 behaves like an absent
cursor and the filter is skipped. -/
def aggregate_candles_to_period (target_period : String)
    (src : Option (List Candle)) (last_aggregated_timestamp : Option Nat)
    (now_ms market_close_ms : Nat) : Bool × List AggCandle :=
  if ¬ (target_period = "5m" ∨ target_period = "15m") then (false, [])
  else
    let period_ms := period_minutes_of target_period * 60 * 1000
    match src with
    | none => (false, [])
    | some df_1m =>
      if df_1m = [] then (false, [])
      else
        let filtered := match last_aggregated_timestamp with
          | none => df_1m
          | some t =>
            if t = 0 then df_1m
            else df_1m.filter fun c => decide (t + period_ms ≤ c.timestamp)
        if filtered = [] then (true, [])
        else
          (true, aggregate_candles period_ms filtered now_ms market_close_ms)

/-- The frequency validation at the top of
`DataFetcher.fetch_data_at_frequency`; the body past it is a direct API
fetch, an external collaborator. -/
def fetch_data_at_frequency_accepts (frequency : String) : Bool :=
  (["1m", "5m", "10m", "15m", "30m"] : List String).contains frequency

/-- A one-candle 1-minute store used in concrete checks. -/
def sample_candle : Candle :=
  { timestamp := 0, open_price := 1, high := 1, low := 1, close := 1,
    volume := 1 }

/-- Counterexample for C4 as stated: a 10-minute aggregation request over
a non-empty 1-minute store is rejected with the failure flag and nothing
written, not rolled up. -/
theorem c4_agg_rejects_10m_counterexample :
    aggregate_candles_to_period "10m"
      (some [sample_candle]) none 1000000000 0 = (false, []) := by
  rfl

/-- C4 amended: the aggregation engine accepts only the 5- and 15-minute
targets; 10- and 30-minute requests are rejected with a failure flag and
no candles written, while those frequencies are instead accepted by the
direct-fetch validation of `fetch_data_at_frequency`. -/
theorem c4_amended_supported_targets :
    (∀ src lastTs now_ms mc_ms,
      aggregate_candles_to_period "10m" src lastTs now_ms mc_ms =
        (false, []) ∧
      aggregate_candles_to_period "30m" src lastTs now_ms mc_ms =
        (false, [])) ∧
    fetch_data_at_frequency_accepts "10m" = true ∧
    fetch_data_at_frequency_accepts "30m" = true ∧
    (∀ src now_ms mc_ms, src ≠ [] →
      (aggregate_candles_to_period "5m" (some src) none now_ms mc_ms).1 =
        true) ∧
    (∀ src now_ms mc_ms, src ≠ [] →
      (aggregate_candles_to_period "15m" (some src) none now_ms mc_ms).1 =
        true) := by
  refine ⟨fun src lastTs now_ms mc_ms => ⟨?_, ?_⟩, rfl, rfl, ?_, ?_⟩
  · rw [aggregate_candles_to_period, if_pos (by decide)]
  · rw [aggregate_candles_to_period, if_pos (by decide)]
  · intro src now_ms mc_ms hsrc
    rw [aggregate_candles_to_period, if_neg (by decide)]
    simp only [if_neg hsrc]
  · intro src now_ms mc_ms hsrc
    rw [aggregate_candles_to_period, if_neg (by decide)]
    simp only [if_neg hsrc]

/-- Witness for C4 amended: the 5-minute acceptance applied to a concrete
one-candle store. -/
theorem c4_amended_supported_targets_witness :
    (aggregate_candles_to_period "5m"
      (some [sample_candle]) none 1000000000 0).1 = true :=
  c4_amended_supported_targets.2.2.2.1 _ 1000000000 0 (by simp)

/-- Counterexample for C5 as stated: with the 1-minute store missing, and
with it empty, aggregation reports failure, not success with zero new
candles. -/
theorem c5_missing_source_counterexample :
    (aggregate_candles_to_period "5m" none none 0 0).1 = false ∧
    (aggregate_candles_to_period "5m" (some []) none 0 0).1 = false := by
  exact ⟨rfl, rfl⟩

/-- C5 amended: a missing or empty 1-minute source store makes
`aggregate_candles_to_period` return the failure flag with nothing
written; the success-with-zero-candles outcome arises when the source is
non-empty but every row is older than the non-zero resume cursor plus the
timeframe (a zero cursor is treated as absent by the source's truthiness
test). -/
theorem c5_amended_missing_source_fails :
    (∀ target lastTs now_ms mc_ms,
      aggregate_candles_to_period target none lastTs now_ms mc_ms =
        (false, []) ∧
      aggregate_candles_to_period target (some []) lastTs now_ms mc_ms =
        (false, [])) ∧
    (∀ target src B now_ms mc_ms,
      (target = "5m" ∨ target = "15m") → src ≠ [] → B ≠ 0 →
      (∀ c ∈ src,
        c.timestamp < B + period_minutes_of target * 60 * 1000) →
      aggregate_candles_to_period target (some src) (some B) now_ms mc_ms =
        (true, [])) := by
  constructor
  · intro target lastTs now_ms mc_ms
    constructor
    · rw [aggregate_candles_to_period]
      split <;> rfl
    · rw [aggregate_candles_to_period]
      split
      · rfl
      · simp
  · intro target src B now_ms mc_ms hv hsrc hB hall
    rw [aggregate_candles_to_period, if_neg (not_not_intro hv)]
    simp only [if_neg hsrc, if_neg hB]
    rw [if_pos]
    rw [List.filter_eq_nil_iff]
    intro c hc
    simp only [decide_eq_true_eq, not_le]
    exact hall c hc

/-- Witness for C5 amended: a store whose single candle is older than the
non-zero resume cursor yields success and zero new candles. -/
theorem c5_amended_missing_source_fails_witness :
    aggregate_candles_to_period "5m"
      (some [sample_candle]) (some 300000) 1000000 2000000 = (true, []) :=
  c5_amended_missing_source_fails.2 "5m" _ 300000 1000000 2000000
    (Or.inl rfl) (by simp) (by decide)
    (by intro c hc; simp only [List.mem_singleton] at hc; subst hc; decide)

theorem period_boundaries_cons (period_ms : Nat) (c : Candle)
    (cs : List Candle) :
    period_boundaries period_ms (c :: cs) =
      insert_boundary (get_minute_boundary_timestamp period_ms c.timestamp)
        (period_boundaries period_ms cs) := rfl

theorem mem_insert_boundary_self (x : Nat) (l : List Nat) :
    x ∈ insert_boundary x l := by
  induction l with
  | nil => simp [insert_boundary]
  | cons y ys ih =>
    rw [insert_boundary]
    split
    · simp
    · split
      · rename_i hlt heq
        simp [heq]
      · simp [ih]

theorem mem_insert_boundary_of_mem {y : Nat} {l : List Nat} (x : Nat)
    (h : y ∈ l) : y ∈ insert_boundary x l := by
  induction l with
  | nil => simp at h
  | cons z zs ih =>
    rw [insert_boundary]
    split
    · simp [h]
    · split
      · exact h
      · rcases List.mem_cons.mp h with h1 | h2
        · simp [h1]
        · simp [ih h2]

theorem mem_of_mem_insert_boundary {x y : Nat} {l : List Nat}
    (h : y ∈ insert_boundary x l) : y = x ∨ y ∈ l := by
  induction l with
  | nil => simpa [insert_boundary] using h
  | cons z zs ih =>
    rw [insert_boundary] at h
    split at h
    · rcases List.mem_cons.mp h with h1 | h2
      · exact Or.inl h1
      · exact Or.inr h2
    · split at h
      · exact Or.inr h
      · rcases List.mem_cons.mp h with h1 | h2
        · exact Or.inr (by simp [h1])
        · rcases ih h2 with h3 | h4
          · exact Or.inl h3
          · exact Or.inr (by simp [h4])

theorem boundary_mem_period_boundaries {period_ms : Nat} {c : Candle}
    {cs : List Candle} (h : c ∈ cs) :
    get_minute_boundary_timestamp period_ms c.timestamp ∈
      period_boundaries period_ms cs := by
  induction cs with
  | nil => simp at h
  | cons d ds ih =>
    rw [period_boundaries_cons]
    rcases List.mem_cons.mp h with h1 | h2
    · rw [h1]
      exact mem_insert_boundary_self _ _
    · exact mem_insert_boundary_of_mem _ (ih h2)

theorem exists_mem_of_mem_period_boundaries {period_ms b : Nat}
    {cs : List Candle} (h : b ∈ period_boundaries period_ms cs) :
    ∃ c ∈ cs, get_minute_boundary_timestamp period_ms c.timestamp = b := by
  induction cs with
  | nil => simp [period_boundaries] at h
  | cons d ds ih =>
    rw [period_boundaries_cons] at h
    rcases mem_of_mem_insert_boundary h with h1 | h2
    · exact ⟨d, by simp, h1.symm⟩
    · obtain ⟨c, hc, hb⟩ := ih h2
      exact ⟨c, by simp [hc], hb⟩

theorem aggregate_group_of_ne_nil (b : Nat) {g : List Candle}
    (h : g ≠ []) : ∃ a, aggregate_group b g = some a ∧ a.datetime = b := by
  cases g with
  | nil => exact absurd rfl h
  | cons c rest => exact ⟨_, rfl, rfl⟩

/-- A bucket whose period has elapsed (or where the session close has
passed) is emitted by the aggregation loop. -/
theorem emitted_of_complete {period_ms : Nat} {src : List Candle}
    {now_ms mc_ms b : Nat} (hb : b ∈ period_boundaries period_ms src)
    (hcomplete : ¬ (now_ms < b + period_ms ∧ now_ms < mc_ms)) :
    ∃ a ∈ aggregate_candles period_ms src now_ms mc_ms,
      a.datetime = b := by
  obtain ⟨c, hc, hbc⟩ := exists_mem_of_mem_period_boundaries hb
  have hg : boundary_group period_ms b src ≠ [] := by
    intro hnil
    have hcmem : c ∈ boundary_group period_ms b src :=
      List.mem_filter.mpr ⟨hc, by simp [hbc]⟩
    rw [hnil] at hcmem
    simp at hcmem
  obtain ⟨a, ha, hd⟩ := aggregate_group_of_ne_nil b hg
  refine ⟨a, ?_, hd⟩
  rw [aggregate_candles]
  exact List.mem_filterMap.mpr ⟨b, hb, by rw [if_neg hcomplete, ha]⟩

/-- Every emitted candle sits on a multiple of the period. -/
theorem datetime_dvd_of_mem_aggregate {period_ms : Nat}
    {src : List Candle} {now_ms mc_ms : Nat} {a : AggCandle}
    (h : a ∈ aggregate_candles period_ms src now_ms mc_ms) :
    period_ms ∣ a.datetime := by
  rw [aggregate_candles] at h
  obtain ⟨b, hb, hf⟩ := List.mem_filterMap.mp h
  obtain ⟨c, _, hbc⟩ := exists_mem_of_mem_period_boundaries hb
  have hdvd : period_ms ∣ b := by
    rw [← hbc, get_minute_boundary_timestamp]
    exact Dvd.intro_left _ rfl
  split at hf
  · exact absurd hf (by simp)
  · cases hg : boundary_group period_ms b src with
    | nil =>
      rw [hg] at hf
      exact absurd hf (by simp [aggregate_group])
    | cons c0 rest0 =>
      rw [hg, aggregate_group] at hf
      cases Option.some_inj.mp hf
      exact hdvd

theorem le_foldr_max {l : List Nat} {x : Nat} (h : x ∈ l) :
    x ≤ l.foldr max 0 := by
  induction l with
  | nil => simp at h
  | cons y ys ih =>
    rw [List.foldr_cons]
    rcases List.mem_cons.mp h with h1 | h2
    · rw [h1]
      exact le_max_left _ _
    · exact le_trans (ih h2) (le_max_right _ _)

theorem dvd_foldr_max {P : Nat} {l : List Nat} (h : ∀ x ∈ l, P ∣ x) :
    P ∣ l.foldr max 0 := by
  induction l with
  | nil => simp
  | cons y ys ih =>
    rw [List.foldr_cons]
    rcases max_choice y (ys.foldr max 0) with hm | hm <;> rw [hm]
    · exact h y (by simp)
    · exact ih fun x hx => h x (by simp [hx])

/-- Re-running the grouping loop over the source candles that survive the
resume cursor built from a previous run's newest boundary emits nothing:
completed buckets are behind the cursor and the rest are skipped again. -/
theorem aggregate_after_cursor_empty (P : Nat) (hPpos : 0 < P)
    (src : List Candle) (now_ms mc_ms : Nat) :
    aggregate_candles P
      (src.filter fun c => decide
        ((((aggregate_candles P src now_ms mc_ms).map
            AggCandle.datetime).foldr max 0) + P ≤ c.timestamp))
      now_ms mc_ms = [] := by
  set B := ((aggregate_candles P src now_ms mc_ms).map
    AggCandle.datetime).foldr max 0 with hB
  have hBdvd : P ∣ B := by
    apply dvd_foldr_max
    intro x hx
    obtain ⟨a, ha, hax⟩ := List.mem_map.mp hx
    rw [← hax]
    exact datetime_dvd_of_mem_aggregate ha
  rw [aggregate_candles]
  apply List.filterMap_eq_nil_iff.mpr
  intro b hb
  rw [if_pos]
  obtain ⟨c, hcf, hbc⟩ := exists_mem_of_mem_period_boundaries hb
  obtain ⟨hcsrc, hcts⟩ := List.mem_filter.mp hcf
  have hcts' : B + P ≤ c.timestamp := by simpa using hcts
  obtain ⟨q, hq⟩ := hBdvd
  have hqP : (q + 1) * P ≤ c.timestamp := by
    have hqB : (q + 1) * P = B + P := by rw [hq]; ring
    omega
  have hdiv : q + 1 ≤ c.timestamp / P :=
    (Nat.le_div_iff_mul_le hPpos).mpr hqP
  have hbge : B + P ≤ b := by
    rw [← hbc, get_minute_boundary_timestamp]
    calc B + P = (q + 1) * P := by rw [hq]; ring
    _ ≤ c.timestamp / P * P := Nat.mul_le_mul_right P hdiv
  by_contra hncomp
  have hbsrc : b ∈ period_boundaries P src := by
    rw [← hbc]
    exact boundary_mem_period_boundaries hcsrc
  obtain ⟨a, ha, had⟩ := emitted_of_complete hbsrc hncomp
  have hble : b ≤ B := le_foldr_max (List.mem_map.mpr ⟨a, ha, had⟩)
  omega

/-- The aggregate of the zero-boundary bucket holding `sample_candle`. -/
def sample_agg_candle : AggCandle :=
  { datetime := 0, open_price := 1, high := 1, low := 1, close := 1,
    volume := 1 }

/-- A one-candle 1-minute store on the non-zero 5-minute boundary
600000. -/
def sample_candle_late : Candle :=
  { timestamp := 600000, open_price := 2, high := 2, low := 2, close := 2,
    volume := 1 }

/-- Counterexample for C7 as stated: a run over the store holding only
the timestamp-0 candle writes one candle on boundary 0, so the target
store's newest timestamp is 0; re-running on the unchanged input with
that cursor appends the same candle again (the truthiness test treats
the zero cursor as absent and skips the resume filter), a duplicate
rather than zero new candles. -/
theorem c7_zero_cursor_counterexample :
    aggregate_candles 300000 [sample_candle] 1000000000 0 =
      [sample_agg_candle] ∧
    aggregate_candles_to_period "5m" (some [sample_candle]) (some 0)
      1000000000 0 = (true, [sample_agg_candle]) := by
  have hrun : aggregate_candles 300000 [sample_candle] 1000000000 0 =
      [sample_agg_candle] := by
    simp [aggregate_candles, period_boundaries, period_boundaries_cons,
      insert_boundary, get_minute_boundary_timestamp, boundary_group,
      aggregate_group, sample_candle, sample_agg_candle, List.getLastD]
  refine ⟨hrun, ?_⟩
  rw [aggregate_candles_to_period, if_neg (by decide)]
  simp [hrun]
  rw [show period_minutes_of "5m" * 60 * 1000 = 300000 from rfl]
  exact hrun

/-- C7 amended: aggregation is idempotent whenever the newest boundary
the previous run wrote is non-zero: the engine then only keeps source
candles with timestamp at least `lastWritten + targetTimeframe`, so
re-running `aggregate_candles_to_period` on the unchanged non-empty
1-minute input succeeds while appending zero new candles, and existing
target candles are never duplicated or altered.  (A cursor of exactly 0
is treated as absent by the source's truthiness test and the whole
source is re-aggregated.) -/
theorem c7_aggregation_idempotent (target : String) (src : List Candle)
    (now_ms mc_ms : Nat) (hv : target = "5m" ∨ target = "15m")
    (hsrc : src ≠ [])
    (hB : (((aggregate_candles (period_minutes_of target * 60 * 1000)
        src now_ms mc_ms).map AggCandle.datetime).foldr max 0) ≠ 0) :
    aggregate_candles_to_period target (some src)
      (some (((aggregate_candles (period_minutes_of target * 60 * 1000)
          src now_ms mc_ms).map AggCandle.datetime).foldr max 0))
      now_ms mc_ms = (true, []) := by
  have hPpos : 0 < period_minutes_of target * 60 * 1000 := by
    rw [period_minutes_of]
    split <;> norm_num
  rw [aggregate_candles_to_period, if_neg (not_not_intro hv)]
  simp only [if_neg hsrc, if_neg hB]
  split
  · rfl
  · rw [aggregate_after_cursor_empty _ hPpos]

/-- Witness for C7 amended: the idempotence conclusion on a concrete
one-candle store whose single 5-minute bucket sits on the non-zero
boundary 600000 and was already finalized. -/
theorem c7_aggregation_idempotent_witness :
    aggregate_candles_to_period "5m" (some [sample_candle_late])
      (some (((aggregate_candles (period_minutes_of "5m" * 60 * 1000)
          [sample_candle_late] 1000000000 0).map AggCandle.datetime).foldr
            max 0))
      1000000000 0 = (true, []) :=
  c7_aggregation_idempotent "5m" [sample_candle_late] 1000000000 0
    (Or.inl rfl) (by simp) (by decide)

/-! ## Position-state persistence (src/position_tracker.py) -/

/-- The keyed position-state document, one record per
`(timeframe, side)` key as in the JSON store. -/
structure PositionStore where
  records : List ((String × Side) × PositionRecord)
deriving DecidableEq, Repr

/-- The default store of `_load_position_states`: every timeframe and
side starts CLOSED with no opening price and zero total P&L. -/
def default_position_store : PositionStore :=
  { records := [
      (("5m", .LONG), default_position_record),
      (("5m", .SHORT), default_position_record),
      (("10m", .LONG), default_position_record),
      (("10m", .SHORT), default_position_record),
      (("15m", .LONG), default_position_record),
      (("15m", .SHORT), default_position_record),
      (("30m", .LONG), default_position_record),
      (("30m", .SHORT), default_position_record)] }

/-- Outcome of reading the position-state file: absent, present but
unreadable (the caught exception path), or parsed. -/
inductive StateFileRead where
  | missing
  | read_error
  | ok (data : PositionStore)

/-- Model of `PositionTracker._load_position_states`: a missing file and
a failed read both fall back to the defaults; the function always
returns, it never propagates the failure. -/
def load_position_states : StateFileRead → PositionStore
  | .ok data => data
  | .read_error => default_position_store
  | .missing => default_position_store

/-- Model of one `_process_position_type` call together with its
persistence effect: `_save_position_states` runs only on a transition,
and a failed save is caught and logged, leaving the on-disk record as it
was while the in-memory record keeps the new state.  The result is
((in-memory record, on-disk record), action). -/
def process_position_type_with_save (write_ok : Bool) (side : Side)
    (record disk_record : PositionRecord) (ind : IndicatorSnapshot) :
    (PositionRecord × PositionRecord) × Option Action :=
  let step := process_position_type side record ind
  match step.2 with
  | some _ => ((step.1, if write_ok then step.1 else disk_record), step.2)
  | none => ((step.1, disk_record), step.2)

/-- Counterexample for C6 as stated: a failed store read yields the
default records and the invocation carries on, and with a failing store
write an OPEN transition still commits to the in-memory record (the disk
record stays behind), so the invocation neither fails nor rolls back. -/
theorem c6_persistence_nonfatal_counterexample :
    load_position_states .read_error = default_position_store ∧
    process_position_type_with_save false .LONG default_position_record
        default_position_record snapshot_all_met =
      (({ state := .OPENED, opening_price := some 100, total_pnl := 0 },
        default_position_record), some .OPEN) :=
  ⟨rfl, rfl⟩

/-- C6 amended: position-state persistence is best-effort, not fatal: a
missing or unreadable store falls back to the default records and the run
continues; a parsed store is used as-is; the evaluation outcome is
independent of whether the save succeeds; and a failed save leaves the
on-disk record unchanged while the in-memory transition stands. -/
theorem c6_amended_persistence_best_effort :
    (load_position_states .missing = default_position_store ∧
      load_position_states .read_error = default_position_store) ∧
    (∀ data, load_position_states (.ok data) = data) ∧
    (∀ write_ok side record disk ind,
      ((process_position_type_with_save write_ok side record disk
          ind).1.1,
        (process_position_type_with_save write_ok side record disk
          ind).2) = process_position_type side record ind) ∧
    (∀ side record disk ind,
      (process_position_type_with_save false side record disk
        ind).1.2 = disk) := by
  refine ⟨⟨rfl, rfl⟩, fun data => rfl, ?_, ?_⟩
  · intro write_ok side record disk ind
    rw [process_position_type_with_save]
    rcases h : (process_position_type side record ind).2 with _ | a <;>
      exact Prod.ext rfl h.symm
  · intro side record disk ind
    rw [process_position_type_with_save]
    rcases h : (process_position_type side record ind).2 with _ | a <;> rfl

end SchwabDataFetcher
